import Mathlib

/-
Verification of the SMS engine's dialogue-orchestration core: a shallow
embedding of the user/credit model, conversation store, continuation
manager, AI provider router and the SMS controller pipeline, followed by
theorems about the claims of the specification.

Texts are modelled as lists of characters (JS strings), timestamps as
natural numbers (sequential logical time), and database collections as
lists in insertion order.
-/

namespace SmsEngine

/-- JS strings are modelled as lists of characters. -/
abbrev Txt := List Char

deriving instance DecidableEq for Except

/-- Whitespace test used by the schema trim setters (JS String.trim). -/
def isWS (c : Char) : Bool := c.isWhitespace

/-- Remove leading whitespace. -/
def dropLeading (l : Txt) : Txt := l.dropWhile isWS

/-- Remove trailing whitespace. -/
def dropTrailing (l : Txt) : Txt := (l.reverse.dropWhile isWS).reverse

/-- JS String.trim / mongoose trim setter: remove leading and trailing whitespace. -/
def trimText (l : Txt) : Txt := dropTrailing (dropLeading l)

/-- JS String.toLowerCase. -/
def lowerText (l : Txt) : Txt := l.map Char.toLower

/-- message.toLowerCase().trim(), the normalization applied by handleSpecialCommands. -/
def normalize (l : Txt) : Txt := trimText (lowerText l)

/-- Whether the second list occurs contiguously at the head of the first. -/
def leadMatch : Txt → Txt → Bool
  | _, [] => true
  | [], _ :: _ => false
  | h :: hs, n :: ns => h = n && leadMatch hs ns

/-- JS String.includes: whether the needle occurs as a contiguous sublist of the haystack. -/
def hasSub : Txt → Txt → Bool
  | [], needle => needle.isEmpty
  | h :: hs, needle => leadMatch (h :: hs) needle || hasSub hs needle

/-- Message role (Message schema enum). -/
inductive Role
  | user
  | assistant
  | system
deriving DecidableEq

/-- One stored conversation turn (Message model, fields used by the core). -/
structure StoredMsg where
  phone : String
  role : Role
  content : Txt
  createdAt : Nat
deriving DecidableEq

/-- One user account (User model, fields used by the core; blance is the
misspelled balance field of the source schema). -/
structure User where
  blance : Int
  smsSent : Nat
  isActive : Bool
  lastActivity : Nat
  createdAt : Nat
deriving DecidableEq

/-- One stored reply remainder (RemainingMessage model). -/
structure Continuation where
  phone : String
  content : Txt
  messageIndex : Nat
  totalParts : Nat
  createdAt : Nat
  expiresAt : Nat
deriving DecidableEq

/-- Database state threaded through the pipeline, plus a logical clock
advanced on every timestamped write. -/
structure PState where
  users : List (String × User)
  messages : List StoredMsg
  remaining : List Continuation
  now : Nat
deriving DecidableEq

/-- User.findOne keyed by phone number. -/
def lookupIn : List (String × User) → String → Option User
  | [], _ => none
  | (p, u) :: rest, phone => if p = phone then some u else lookupIn rest phone

/-- findOneAndUpdate: replace the value stored under a key. -/
def updateIn : List (String × User) → String → User → List (String × User)
  | [], _, _ => []
  | (p, u) :: rest, phone, u2 =>
    if p = phone then (p, u2) :: updateIn rest phone u2
    else (p, u) :: updateIn rest phone u2

/-- config.app.freeSmsCredits (default 9). -/
def freeSmsCredits : Int := 9

/-- config.app.maxSmsLength (default 1600). -/
def maxSmsLength : Nat := 1600

/-- userSchema.methods.consumeCredit: decrement balance and count usage,
only when the balance is positive. -/
def consumeCredit (u : User) (now : Nat) : User :=
  if 0 < u.blance then
    { u with blance := u.blance - 1, smsSent := u.smsSent + 1, lastActivity := now }
  else u

/-- SMSController.manageUserCredits: create a trial account on first contact,
block at non-positive balance, otherwise consume one credit. -/
def manageUserCredits (phone : String) (s : PState) : Option User × PState :=
  match lookupIn s.users phone with
  | none =>
    let u : User :=
      { blance := freeSmsCredits, smsSent := 1, isActive := true
        lastActivity := s.now, createdAt := s.now }
    (some u, { s with users := s.users ++ [(phone, u)] })
  | some u =>
    if u.blance ≤ 0 then (none, s)
    else
      let u2 := consumeCredit u s.now
      (some u2, { s with users := updateIn s.users phone u2 })

/-- PaymentController.addCreditsToUser: add purchased credits and reset the
usage counter, upserting the account. -/
def addCreditsToUser (phone : String) (credits : Int) (s : PState) : PState :=
  match lookupIn s.users phone with
  | some u =>
    let u2 := { u with blance := u.blance + credits, smsSent := 0, lastActivity := s.now }
    { s with users := updateIn s.users phone u2 }
  | none =>
    let u : User :=
      { blance := credits, smsSent := 0, isActive := true
        lastActivity := s.now, createdAt := s.now }
    { s with users := s.users ++ [(phone, u)] }

/-- Deferred notification events. -/
inductive Note
  | welcome
  | lowBalance
  | excessUsage
deriving DecidableEq

/-- SMSController.sendNotificationMessages: which notifications are scheduled
for the post-transaction user snapshot. -/
def notificationsFor (u : User) : List Note :=
  (if u.smsSent = 1 then [Note.welcome] else []) ++
  (if u.blance = 10 then [Note.lowBalance] else []) ++
  (if u.blance < 2 then [Note.excessUsage] else [])

/-- Insert a turn into a list sorted ascending by creation time, keeping
insertion order between equal timestamps. -/
def insertByTime (m : StoredMsg) : List StoredMsg → List StoredMsg
  | [] => [m]
  | x :: xs => if m.createdAt ≤ x.createdAt then m :: x :: xs else x :: insertByTime m xs

/-- Sort turns ascending by creation time (mongoose sort createdAt: 1). -/
def sortByTime : List StoredMsg → List StoredMsg
  | [] => []
  | x :: xs => insertByTime x (sortByTime xs)

/-- messageSchema.statics.getConversationHistory: find by phone, sort by
createdAt ascending, then apply the limit. -/
def getConversationHistory (phone : String) (limit : Nat) (msgs : List StoredMsg) :
    List StoredMsg :=
  (sortByTime (msgs.filter (fun m => decide (m.phone = phone)))).take limit

/-- Reference definition following the claim wording only, for comparison with
the source definition: the most recent limit turns in oldest-first order. -/
def getConversationHistoryClaim (phone : String) (limit : Nat) (msgs : List StoredMsg) :
    List StoredMsg :=
  let sorted := sortByTime (msgs.filter (fun m => decide (m.phone = phone)))
  sorted.drop (sorted.length - limit)

/-- Message.create: the schema trims the content, requires it nonempty and
bounds it at 2000 characters; the stored turn is stamped with the clock. -/
def createMessage (phone : String) (role : Role) (content : Txt) (s : PState) :
    Except Txt PState :=
  let c := trimText content
  if c.length = 0 then Except.error ("Message content is required".toList)
  else if 2000 < c.length then Except.error ("Message content exceeds maximum length".toList)
  else Except.ok { s with
    messages := s.messages ++ [⟨phone, role, c, s.now⟩]
    now := s.now + 1 }

/-- Largest messageIndex among an account's stored remainders (findOne sorted
by messageIndex descending; 0 when none exists). -/
def maxIndexOf (phone : String) : List Continuation → Nat
  | [] => 0
  | r :: rs =>
    if r.phone = phone then max r.messageIndex (maxIndexOf phone rs)
    else maxIndexOf phone rs

/-- remainingMessageSchema.statics.createRemainingMessage: next sequence index,
trimmed content (schema trim setter), nonempty-content validation, 24-hour
expiry from creation. -/
def createRemainingMessage (phone : String) (content : Txt) (s : PState) :
    Except Txt (Continuation × PState) :=
  let idx := maxIndexOf phone s.remaining + 1
  let c := trimText content
  if c.length = 0 then Except.error ("Remaining message content cannot be empty".toList)
  else
    let r : Continuation :=
      { phone := phone, content := c, messageIndex := idx, totalParts := idx
        createdAt := s.now, expiresAt := s.now + 86400000 }
    Except.ok (r, { s with remaining := s.remaining ++ [r], now := s.now + 1 })

/-- The later-created of two remainders (ties keep the first). -/
def laterOf (b r : Continuation) : Continuation :=
  if b.createdAt < r.createdAt then r else b

/-- Fold selecting the remainder with the greatest creation time. -/
def latestOf : Option Continuation → List Continuation → Option Continuation
  | acc, [] => acc
  | none, r :: rs => latestOf (some r) rs
  | some b, r :: rs => latestOf (some (laterOf b r)) rs

/-- The unexpired remainders of one account (expiresAt strictly in the future). -/
def unexpiredFor (phone : String) (now : Nat) (rem : List Continuation) :
    List Continuation :=
  rem.filter (fun r => decide (r.phone = phone) && decide (now < r.expiresAt))

/-- remainingMessageSchema.statics.getLatestRemainingMessage: findOne among the
account's unexpired remainders, sorted by createdAt descending. -/
def getLatestRemainingMessage (phone : String) (now : Nat) (rem : List Continuation) :
    Option Continuation :=
  latestOf none (unexpiredFor phone now rem)

/-- The fixed continuation marker appended to truncated replies. -/
def marker : Txt := "....Reply MORE to continue reading".toList

/-- SMSController.handleLongResponse: pass short replies through; otherwise
truncate to maxLen - 34, persist the remainder, and append the marker. -/
def handleLongResponse (maxLen : Nat) (phone : String) (response : Txt) (s : PState) :
    Except Txt (Txt × PState) :=
  if response.length ≤ maxLen then Except.ok (response, s)
  else
    let allowedLength := maxLen - 34
    let truncated := response.take allowedLength
    let remainingText := response.drop allowedLength
    match createRemainingMessage phone remainingText s with
    | Except.error e => Except.error e
    | Except.ok (_, s2) => Except.ok (truncated ++ marker, s2)

/-- Routing options (only the provider override field is consulted). -/
structure RouteOptions where
  provider : Option String
deriving DecidableEq

/-- AIRouterService.isComplexMessage: complex-intent lexicon matched against
the lowercased message. -/
def isComplexMessage (m : Txt) : Bool :=
  let lower := lowerText m
  ["explain", "how to", "what is", "why does", "analyze", "compare",
   "describe", "elaborate", "detailed", "comprehensive"].any
    (fun ind => hasSub lower ind.toList)

/-- AIRouterService.hasTechnicalTerms: technical-term lexicon matched against
the lowercased message. -/
def hasTechnicalTerms (m : Txt) : Bool :=
  let lower := lowerText m
  ["api", "database", "algorithm", "framework", "protocol", "architecture",
   "integration", "deployment", "optimization", "scalability"].any
    (fun term => hasSub lower term.toList)

/-- The heuristic branches of AIRouterService.selectProvider after the
override check. -/
def selectHeuristic (message : Txt) (history : List (Role × Txt)) : String :=
  if isComplexMessage message || hasTechnicalTerms message || 5 < history.length then
    "grok"
  else if 500 < message.length then
    "grok"
  else
    "grok"

/-- AIRouterService.selectProvider: explicit override when it names a known
provider, otherwise the message-shape heuristic. -/
def selectProvider (message : Txt) (history : List (Role × Txt)) (o : RouteOptions) :
    String :=
  match o.provider with
  | some p => if p = "grok" ∨ p = "openai" then p else selectHeuristic message history
  | none => selectHeuristic message history

/-- One attempted provider invocation, as recorded for the call trace. -/
structure ProviderCall where
  provider : String
  entry : String
  message : Txt
  history : List (Role × Txt)
deriving DecidableEq

/-- The primary provider's conversational entry point applied to a message
and history. -/
def primaryCall (m : Txt) (h : List (Role × Txt)) : ProviderCall :=
  ⟨"grok", "getConversationalResponse", m, h⟩

/-- The aggregate failure message raised when all providers failed. -/
def allUnavailableText : Txt := "All AI services are currently unavailable".toList

/-- The try block of AIRouterService.routeMessage: dispatch on the selected
provider; the grok arm calls the conversational entry point (oracle call 0),
the openai arm throws its not-implemented stub. Returns the outcome and the
provider calls made. -/
def firstAttempt (oracle : Nat → Except Txt Txt) (m : Txt) (h : List (Role × Txt))
    (o : RouteOptions) : Except Txt Txt × List ProviderCall :=
  let p := selectProvider m h o
  if p = "grok" then (oracle 0, [primaryCall m h])
  else if p = "openai" then
    (Except.error ("OpenAI text processing not implemented yet".toList), [])
  else (Except.error (("Unknown AI provider: " ++ p).toList), [])

/-- AIRouterService.routeMessage: on any failure of the selected attempt,
retry once against grok's conversational entry point with the same message
and history; if that also fails, raise the aggregate failure. The oracle
gives the outcome of the n-th grok call of this request. -/
def routeMessage (oracle : Nat → Except Txt Txt) (m : Txt) (h : List (Role × Txt))
    (o : RouteOptions) : Except Txt Txt × List ProviderCall :=
  match firstAttempt oracle m h o with
  | (Except.ok r, calls) => (Except.ok r, calls)
  | (Except.error _, calls) =>
    match oracle calls.length with
    | Except.ok r => (Except.ok r, calls ++ [primaryCall m h])
    | Except.error _ => (Except.error allUnavailableText, calls ++ [primaryCall m h])

/-- SMSController.generateAIResponse: persist the user turn, fetch the
ten-turn context projected to role and content, route to the AI provider,
and persist the assistant turn on success. -/
def generateAIResponse (oracle : Nat → Except Txt Txt) (phone : String) (message : Txt)
    (s : PState) : Except Txt Txt × PState × List ProviderCall :=
  match createMessage phone Role.user message s with
  | Except.error e => (Except.error e, s, [])
  | Except.ok s1 =>
    let hist := (getConversationHistory phone 10 s1.messages).map
      (fun m => (m.role, m.content))
    match routeMessage oracle message hist ⟨none⟩ with
    | (Except.error e, calls) => (Except.error e, s1, calls)
    | (Except.ok ai, calls) =>
      match createMessage phone Role.assistant ai s1 with
      | Except.error e => (Except.error e, s1, calls)
      | Except.ok s2 => (Except.ok ai, s2, calls)

/-- Reply to the stop command. -/
def optInText : Txt := "You have opted-in to receive messages from Textile.".toList

/-- Reply to the account command. -/
def accountText (credits : Int) : Txt :=
  ("You have " ++ toString credits ++ " credits remaining.\n" ++
   "Reply DELETE HISTORY to delete all your message records.\n" ++
   "Reply DELETE ACCOUNT to delete your account and all data.").toList

/-- Reply to the delete history command. -/
def historyDeletedText : Txt := "Your message history has been deleted.".toList

/-- Reply to the delete account command. -/
def accountDeletedText : Txt :=
  "Your account and all related data have been deleted.".toList

/-- Reply to the more command when no unexpired remainder exists. -/
def noPendingText : Txt := "You do not have any previous SMS".toList

/-- Reply for a blocked account. -/
def blockedText : Txt := "Account blocked. Please contact support.".toList

/-- Generic failure reply sent by the handleIncomingSMS catch block. -/
def genericFailureText : Txt :=
  "Sorry, something went wrong. Please try again later.".toList

/-- Reply when no usable message content was supplied. -/
def emptyPromptText : Txt := "Please send a text message or audio clip.".toList

/-- SMSController.handleSpecialCommands: recognize the fixed command
vocabulary on the normalized message; some (reply, state) when a command was
handled, none when the pipeline continues. -/
def handleSpecialCommands (phone : String) (message : Txt) (s : PState) :
    Option (Txt × PState) :=
  if normalize message = "stop".toList then some (optInText, s)
  else if normalize message = "account".toList then
    some (accountText (match lookupIn s.users phone with
      | some u => u.blance
      | none => 0), s)
  else if normalize message = "delete history".toList then
    some (historyDeletedText,
      { s with messages := s.messages.filter (fun m => !decide (m.phone = phone)) })
  else if normalize message = "delete account".toList then
    some (accountDeletedText,
      { s with
        users := s.users.filter (fun pu => !decide (pu.1 = phone))
        messages := s.messages.filter (fun m => !decide (m.phone = phone))
        remaining := s.remaining.filter (fun r => !decide (r.phone = phone)) })
  else if normalize message = "more".toList then
    some ((match getLatestRemainingMessage phone s.now s.remaining with
      | some r => r.content
      | none => noPendingText), s)
  else none

/-- The reply produced by the more command in a given state. -/
def moreReplyFor (phone : String) (s : PState) : Txt :=
  match getLatestRemainingMessage phone s.now s.remaining with
  | some r => r.content
  | none => noPendingText

/-- Observable outcome of processing one inbound message: replies emitted in
order, notification events scheduled, provider calls made, an uncaught
exception if one was thrown, and the final database state. -/
structure RunOut where
  replies : List Txt
  notes : List Note
  calls : List ProviderCall
  err : Option Txt
  state : PState
deriving DecidableEq

/-- The non-command path of SMSController.processUserMessage: admission,
generation, pagination, reply, then notification scheduling. -/
def creditAndRespond (oracle : Nat → Except Txt Txt) (phone : String) (message : Txt)
    (s : PState) : RunOut :=
  match manageUserCredits phone s with
  | (none, s1) => ⟨[blockedText], [], [], none, s1⟩
  | (some u, s1) =>
    match generateAIResponse oracle phone message s1 with
    | (Except.error e, s2, calls) => ⟨[], [], calls, some e, s2⟩
    | (Except.ok ai, s2, calls) =>
      match handleLongResponse maxSmsLength phone ai s2 with
      | Except.error e => ⟨[], [], calls, some e, s2⟩
      | Except.ok (finalText, s3) => ⟨[finalText], notificationsFor u, calls, none, s3⟩

/-- SMSController.processUserMessage: command short-circuit, then the credit
and generation pipeline. -/
def processUserMessage (oracle : Nat → Except Txt Txt) (phone : String) (message : Txt)
    (s : PState) : RunOut :=
  match handleSpecialCommands phone message s with
  | some (reply, s1) => ⟨[reply], [], [], none, s1⟩
  | none => creditAndRespond oracle phone message s

/-- The text path of SMSController.handleIncomingSMS: trim the body, reject an
empty message, run the pipeline, and turn an uncaught exception into the
single generic failure reply. -/
def handleIncomingText (oracle : Nat → Except Txt Txt) (phone : String) (body : Txt)
    (s : PState) : RunOut :=
  let userMessage := trimText body
  if userMessage.length = 0 then ⟨[emptyPromptText], [], [], none, s⟩
  else
    let r := processUserMessage oracle phone userMessage s
    match r.err with
    | some _ => { r with replies := r.replies ++ [genericFailureText], err := none }
    | none => r

/-- Every stored account has a non-negative balance. -/
def AccountsNonneg (s : PState) : Prop :=
  ∀ pu ∈ s.users, 0 ≤ (pu.2 : User).blance

instance (s : PState) : Decidable (AccountsNonneg s) := by
  unfold AccountsNonneg
  infer_instance

/-- A sequence of sequential admission calls, by caller phone number. -/
def admissionSeq (calls : List String) (s : PState) : PState :=
  calls.foldl (fun st p => (manageUserCredits p st).2) s

/-- AudioInboundService maxAudioSize: 25 MB. -/
def maxAudioSize : Nat := 25 * 1024 * 1024

/-- OpenAIService.getSupportedFormats: the enumerated audio content types. -/
def getSupportedFormats : List String :=
  ["audio/wav", "audio/mp3", "audio/mp4", "audio/mpeg", "audio/mpga",
   "audio/webm", "audio/ogg"]

/-- AudioInboundService.validateAudio: nonempty, within the size ceiling, and
of an enumerated content type. (Defined in the source but never invoked on
the inbound path.) -/
def validateAudio (size : Nat) (contentType : String) : Bool :=
  if size = 0 then false
  else if maxAudioSize < size then false
  else getSupportedFormats.contains contentType

/-- Media fields of the inbound webhook payload. -/
structure InboundMedia where
  mediaUrl : Option String
  mediaContentType : Option String
deriving DecidableEq

/-- The catch block of AudioInboundService.processInboundAudio: a thrown
message mentioning too large degrades to the sentinel, anything else becomes
a processing failure. -/
def catchAudioError (e : Txt) : Except Txt (Option Txt × Bool) :=
  if hasSub e ("too large".toList) then Except.ok (some ("audio too large".toList), true)
  else Except.error (("Failed to process audio: ".toList) ++ e)

/-- AudioInboundService.processInboundAudio: download the attachment, apply
the size ceiling, then hand the buffer to the transcription provider with the
declared content type (defaulting to audio/wav). The download argument gives
the downloaded byte count or a failure; the transcribe argument is the
provider, taking buffer size and MIME type; the second component of the
result records every transcription call made with its MIME type. -/
def processInboundAudio (download : Except Unit Nat)
    (transcribe : Nat → String → Except Txt Txt) (req : InboundMedia) :
    Except Txt (Option Txt × Bool) × List (Nat × String) :=
  match req.mediaUrl with
  | none => (Except.ok (none, false), [])
  | some _ =>
    match download with
    | Except.error _ => (catchAudioError ("Failed to download audio file".toList), [])
    | Except.ok size =>
      if maxAudioSize < size then (Except.ok (some ("audio too large".toList), true), [])
      else
        let mime := (req.mediaContentType).getD "audio/wav"
        match transcribe size mime with
        | Except.ok t => (Except.ok (some t, true), [(size, mime)])
        | Except.error e => (catchAudioError e, [(size, mime)])

/-- Concrete fixture: first stored turn of account p. -/
def turnA : StoredMsg := ⟨"p", Role.user, "a".toList, 0⟩

/-- Concrete fixture: second stored turn of account p. -/
def turnB : StoredMsg := ⟨"p", Role.assistant, "b".toList, 1⟩

/-- Concrete fixture: third (most recent) stored turn of account p. -/
def turnC : StoredMsg := ⟨"p", Role.user, "c".toList, 2⟩

/-- Concrete fixture: a store holding three turns of account p. -/
def threeTurns : List StoredMsg := [turnA, turnB, turnC]

/-- Concrete fixture: an empty database at clock 100. -/
def emptyState : PState := ⟨[], [], [], 100⟩

/-- Concrete fixture: a 41-character reply whose remainder after position 6
starts with a space. -/
def spacedReply : Txt := "abcdef".toList ++ ' ' :: List.replicate 34 'b'

/-- Concrete fixture: the remainder record the pagination of spacedReply
stores at clock 100 (content trimmed by the schema). -/
def spacedCont : Continuation := ⟨"p", List.replicate 34 'b', 1, 1, 100, 86400100⟩

/-- Concrete fixture: the database after paginating spacedReply. -/
def spacedAfter : PState := ⟨[], [], [spacedCont], 101⟩

/-- Concrete fixture: a provider oracle whose every call fails. -/
def failOracle : Nat → Except Txt Txt := fun _ => Except.error ("boom".toList)

/-- Concrete fixture: an account with exhausted balance. -/
def zeroUser : User := ⟨0, 5, true, 0, 0⟩

/-- Concrete fixture: a state holding only the exhausted account z. -/
def zeroState : PState := ⟨[("z", zeroUser)], [], [], 50⟩

/-- Concrete fixture: an unexpired stored remainder for account p. -/
def tailCont : Continuation := ⟨"p", "tail".toList, 1, 1, 10, 999999⟩

/-- Concrete fixture: an expired stored remainder for account p. -/
def staleCont : Continuation := ⟨"p", "old".toList, 2, 2, 12, 15⟩

/-- Concrete fixture: a state holding one unexpired and one expired remainder. -/
def moreState : PState := ⟨[], [], [tailCont, staleCont], 20⟩

/-- Concrete fixture: an account mid-life, before a top-up. -/
def midUser : User := ⟨3, 7, true, 0, 0⟩

/-- Concrete fixture: a state holding the mid-life account p. -/
def midState : PState := ⟨[("p", midUser)], [], [], 5⟩

/-! Helper lemmas about the embedded operations. -/

theorem dropWhile_idem (p : Char → Bool) (l : Txt) :
    (l.dropWhile p).dropWhile p = l.dropWhile p := by
  induction l with
  | nil => rfl
  | cons a l ih =>
    rw [List.dropWhile_cons]
    by_cases h : p a = true
    · rw [if_pos h]; exact ih
    · rw [if_neg h, List.dropWhile_cons, if_neg h]

theorem dropLeading_idem (l : Txt) : dropLeading (dropLeading l) = dropLeading l :=
  dropWhile_idem isWS l

theorem dropTrailing_idem (l : Txt) : dropTrailing (dropTrailing l) = dropTrailing l := by
  unfold dropTrailing
  rw [List.reverse_reverse, dropWhile_idem]

theorem dropTrailing_split (m : Txt) :
    m = dropTrailing m ++ (m.reverse.takeWhile isWS).reverse := by
  unfold dropTrailing
  conv_lhs => rw [← List.reverse_reverse m,
    ← List.takeWhile_append_dropWhile (p := isWS) (l := m.reverse)]
  rw [List.reverse_append]

theorem dropLeading_dropTrailing {m : Txt} (h : dropLeading m = m) :
    dropLeading (dropTrailing m) = dropTrailing m := by
  cases hR : dropTrailing m with
  | nil => rfl
  | cons c cs =>
    have hsplit := dropTrailing_split m
    rw [hR] at hsplit
    have hc : isWS c = false := by
      by_cases hcw : isWS c = true
      · exfalso
        have hdrop : dropLeading m = (cs ++ (m.reverse.takeWhile isWS).reverse).dropWhile isWS := by
          conv_lhs => rw [hsplit]
          unfold dropLeading
          rw [List.cons_append, List.dropWhile_cons, if_pos hcw]
        have hlen : (dropLeading m).length ≤ (cs ++ (m.reverse.takeWhile isWS).reverse).length := by
          rw [hdrop]; exact (List.dropWhile_sublist _).length_le
        rw [h] at hlen
        conv_lhs at hlen => rw [hsplit]
        simp [List.length_cons] at hlen
      · simpa using hcw
    unfold dropLeading
    rw [List.dropWhile_cons, if_neg (by simp [hc])]

theorem trimText_idem (l : Txt) : trimText (trimText l) = trimText l := by
  unfold trimText
  rw [dropLeading_dropTrailing (dropLeading_idem l), dropTrailing_idem]

theorem lookupIn_updateIn (l : List (String × User)) (phone : String) (u2 : User) :
    lookupIn (updateIn l phone u2) phone = (lookupIn l phone).map (fun _ => u2) := by
  induction l with
  | nil => rfl
  | cons pu rest ih =>
    obtain ⟨p, u⟩ := pu
    by_cases h : p = phone
    · simp [updateIn, lookupIn, h]
    · simp [updateIn, lookupIn, h, ih]

theorem mem_updateIn {l : List (String × User)} {phone : String} {u2 : User}
    {pu : String × User} (h : pu ∈ updateIn l phone u2) : pu.2 = u2 ∨ pu ∈ l := by
  induction l with
  | nil => cases h
  | cons qv rest ih =>
    obtain ⟨q, v⟩ := qv
    by_cases hq : q = phone
    · rw [updateIn, if_pos hq] at h
      rcases List.mem_cons.mp h with h1 | h1
      · left; rw [h1]
      · rcases ih h1 with h2 | h2
        · exact Or.inl h2
        · exact Or.inr (List.mem_cons_of_mem _ h2)
    · rw [updateIn, if_neg hq] at h
      rcases List.mem_cons.mp h with h1 | h1
      · exact Or.inr (h1 ▸ List.mem_cons_self _ _)
      · rcases ih h1 with h2 | h2
        · exact Or.inl h2
        · exact Or.inr (List.mem_cons_of_mem _ h2)

theorem mem_insertByTime {m x : StoredMsg} {l : List StoredMsg} :
    x ∈ insertByTime m l ↔ x = m ∨ x ∈ l := by
  induction l with
  | nil => simp [insertByTime]
  | cons y ys ih =>
    rw [insertByTime]
    by_cases h : m.createdAt ≤ y.createdAt
    · rw [if_pos h]; simp
    · rw [if_neg h]
      simp only [List.mem_cons, ih]
      tauto

theorem pairwise_insertByTime {m : StoredMsg} {l : List StoredMsg}
    (h : l.Pairwise (fun a b => a.createdAt ≤ b.createdAt)) :
    (insertByTime m l).Pairwise (fun a b => a.createdAt ≤ b.createdAt) := by
  induction l with
  | nil => simp [insertByTime]
  | cons y ys ih =>
    obtain ⟨hy, hys⟩ := List.pairwise_cons.mp h
    rw [insertByTime]
    by_cases hc : m.createdAt ≤ y.createdAt
    · rw [if_pos hc]
      refine List.pairwise_cons.mpr ⟨?_, h⟩
      intro z hz
      rcases List.mem_cons.mp hz with h1 | h1
      · rw [h1]; exact hc
      · exact le_trans hc (hy z h1)
    · rw [if_neg hc]
      refine List.pairwise_cons.mpr ⟨?_, ih hys⟩
      intro z hz
      rcases mem_insertByTime.mp hz with h1 | h1
      · rw [h1]; omega
      · exact hy z h1

theorem pairwise_sortByTime (l : List StoredMsg) :
    (sortByTime l).Pairwise (fun a b => a.createdAt ≤ b.createdAt) := by
  induction l with
  | nil => simp [sortByTime]
  | cons x xs ih => exact pairwise_insertByTime ih

theorem mem_sortByTime {x : StoredMsg} {l : List StoredMsg} :
    x ∈ sortByTime l ↔ x ∈ l := by
  induction l with
  | nil => simp [sortByTime]
  | cons y ys ih =>
    rw [sortByTime, mem_insertByTime]
    simp [ih]

theorem latestOf_mem_max (cs : List Continuation) (acc : Option Continuation)
    (c : Continuation) (h : latestOf acc cs = some c) :
    (acc = some c ∨ c ∈ cs) ∧ (∀ b, acc = some b → b.createdAt ≤ c.createdAt) ∧
      (∀ x ∈ cs, x.createdAt ≤ c.createdAt) := by
  induction cs generalizing acc with
  | nil =>
    have h0 : latestOf acc [] = acc := by cases acc <;> rfl
    rw [h0] at h
    refine ⟨Or.inl h, ?_, by simp⟩
    intro b hb
    rw [hb] at h
    cases Option.some.inj h
    exact le_refl _
  | cons x xs ih =>
    cases acc with
    | none =>
      rw [latestOf] at h
      obtain ⟨h1, h2, h3⟩ := ih (some x) h
      refine ⟨?_, ?_, ?_⟩
      · rcases h1 with h1 | h1
        · exact Or.inr (List.mem_cons.mpr (Or.inl (Option.some.inj h1).symm))
        · exact Or.inr (List.mem_cons_of_mem _ h1)
      · intro b hb; cases hb
      · intro z hz
        rcases List.mem_cons.mp hz with h4 | h4
        · rw [h4]; exact h2 x rfl
        · exact h3 z h4
    | some b =>
      rw [latestOf] at h
      obtain ⟨h1, h2, h3⟩ := ih (some (laterOf b x)) h
      have hb_le : b.createdAt ≤ (laterOf b x).createdAt := by
        unfold laterOf; split <;> omega
      have hx_le : x.createdAt ≤ (laterOf b x).createdAt := by
        unfold laterOf; split <;> omega
      have hlater : (laterOf b x).createdAt ≤ c.createdAt := h2 _ rfl
      refine ⟨?_, ?_, ?_⟩
      · rcases h1 with h1 | h1
        · have h5 := Option.some.inj h1
          unfold laterOf at h5
          by_cases h6 : b.createdAt < x.createdAt
          · rw [if_pos h6] at h5
            exact Or.inr (List.mem_cons.mpr (Or.inl h5.symm))
          · rw [if_neg h6] at h5
            exact Or.inl (congrArg some h5)
        · exact Or.inr (List.mem_cons_of_mem _ h1)
      · intro b2 hb2
        cases Option.some.inj hb2
        exact le_trans hb_le hlater
      · intro z hz
        rcases List.mem_cons.mp hz with h4 | h4
        · rw [h4]; exact le_trans hx_le hlater
        · exact h3 z h4

theorem latestOf_append_big (cs : List Continuation) (acc : Option Continuation)
    (r : Continuation) (hall : ∀ c ∈ cs, c.createdAt < r.createdAt)
    (hacc : ∀ b, acc = some b → b.createdAt < r.createdAt) :
    latestOf acc (cs ++ [r]) = some r := by
  induction cs generalizing acc with
  | nil =>
    cases acc with
    | none => rfl
    | some b =>
      rw [List.nil_append, latestOf, latestOf]
      have := hacc b rfl
      unfold laterOf
      rw [if_pos this]
  | cons x xs ih =>
    cases acc with
    | none =>
      rw [List.cons_append, latestOf]
      exact ih (some x) (fun c hc => hall c (List.mem_cons_of_mem _ hc))
        (fun b hb => by cases Option.some.inj hb; exact hall x (List.mem_cons_self _ _))
    | some b =>
      rw [List.cons_append, latestOf]
      refine ih (some (laterOf b x)) (fun c hc => hall c (List.mem_cons_of_mem _ hc)) ?_
      intro b2 hb2
      cases Option.some.inj hb2
      have hb := hacc b rfl
      have hx := hall x (List.mem_cons_self _ _)
      unfold laterOf
      split <;> omega

theorem getLatest_append_self {phone : String} {now : Nat} {rem : List Continuation}
    {r : Continuation} (hp : r.phone = phone) (he : now < r.expiresAt)
    (hall : ∀ c ∈ rem, c.createdAt < r.createdAt) :
    getLatestRemainingMessage phone now (rem ++ [r]) = some r := by
  unfold getLatestRemainingMessage unexpiredFor
  rw [List.filter_append]
  have hr : List.filter (fun c => decide (c.phone = phone) && decide (now < c.expiresAt)) [r] = [r] := by
    simp [hp, he]
  rw [hr]
  exact latestOf_append_big _ none r
    (fun c hc => hall c (List.mem_of_mem_filter hc)) (fun b hb => by cases hb)

theorem selectHeuristic_grok (m : Txt) (h : List (Role × Txt)) :
    selectHeuristic m h = "grok" := by
  unfold selectHeuristic
  split
  · rfl
  · split <;> rfl

theorem selectProvider_no_override (m : Txt) (h : List (Role × Txt)) :
    selectProvider m h ⟨none⟩ = "grok" := by
  unfold selectProvider
  exact selectHeuristic_grok m h

theorem firstAttempt_calls_short (oracle : Nat → Except Txt Txt) (m : Txt)
    (h : List (Role × Txt)) (o : RouteOptions) :
    (firstAttempt oracle m h o).2.length ≤ 1 := by
  unfold firstAttempt
  dsimp only
  split
  · simp
  · split <;> simp

theorem firstAttempt_no_override (oracle : Nat → Except Txt Txt) (m : Txt)
    (h : List (Role × Txt)) :
    firstAttempt oracle m h ⟨none⟩ = (oracle 0, [primaryCall m h]) := by
  unfold firstAttempt
  rw [selectProvider_no_override]
  simp

theorem handleSpecialCommands_eq_none {phone : String} {message : Txt} {s : PState}
    (h1 : normalize message ≠ "stop".toList)
    (h2 : normalize message ≠ "account".toList)
    (h3 : normalize message ≠ "delete history".toList)
    (h4 : normalize message ≠ "delete account".toList)
    (h5 : normalize message ≠ "more".toList) :
    handleSpecialCommands phone message s = none := by
  unfold handleSpecialCommands
  rw [if_neg h1, if_neg h2, if_neg h3, if_neg h4, if_neg h5]

theorem manageUserCredits_nonneg {phone : String} {s : PState} (h : AccountsNonneg s) :
    AccountsNonneg (manageUserCredits phone s).2 := by
  cases hl : lookupIn s.users phone with
  | none =>
    simp only [manageUserCredits, hl]
    intro pu hpu
    rcases List.mem_append.mp hpu with h1 | h1
    · exact h pu h1
    · rcases List.mem_cons.mp h1 with h2 | h2
      · rw [h2]; norm_num [freeSmsCredits]
      · cases h2
  | some u =>
    simp only [manageUserCredits, hl]
    by_cases hb : u.blance ≤ 0
    · rw [if_pos hb]; exact h
    · rw [if_neg hb]
      intro pu hpu
      rcases mem_updateIn hpu with h2 | h2
      · rw [h2]
        unfold consumeCredit
        rw [if_pos (by omega)]
        simp only
        omega
      · exact h pu h2

/-- C1 (counterexample): with three stored turns of account p at times 0, 1
and 2 and limit 2, the conversation-history operation returns the two oldest
turns and omits the single most recent one, which is strictly more recent
than every returned turn; the source operation also disagrees with the
claim-side reference definition (most recent turns, oldest-first) at this
input. -/
theorem getConversationHistory_not_recent_cex :
    getConversationHistory "p" 2 threeTurns = [turnA, turnB] ∧
    turnC ∈ threeTurns ∧
    turnC ∉ getConversationHistory "p" 2 threeTurns ∧
    turnB.createdAt < turnC.createdAt ∧
    turnA.createdAt < turnC.createdAt ∧
    getConversationHistory "p" 2 threeTurns ≠ getConversationHistoryClaim "p" 2 threeTurns ∧
    getConversationHistoryClaim "p" 2 threeTurns = [turnB, turnC] := by
  decide

/-- C1 (amended): for every account and limit, the conversation-history
operation returns the oldest limit turns for that account, ordered
chronologically oldest-first (pairwise non-decreasing creation times), all
belonging to that account; every returned turn is at least as old as every
omitted turn of the account. -/
theorem history_returns_oldest :
    ∀ (phone : String) (limit : Nat) (msgs : List StoredMsg),
      (getConversationHistory phone limit msgs).Pairwise
        (fun a b => a.createdAt ≤ b.createdAt) ∧
      (∀ x ∈ getConversationHistory phone limit msgs, x.phone = phone) ∧
      (∀ x ∈ getConversationHistory phone limit msgs,
        ∀ y ∈ (sortByTime (msgs.filter (fun m => decide (m.phone = phone)))).drop limit,
          x.createdAt ≤ y.createdAt) := by
  intro phone limit msgs
  have hp : (sortByTime (msgs.filter (fun m => decide (m.phone = phone)))).Pairwise
      (fun a b => a.createdAt ≤ b.createdAt) := pairwise_sortByTime _
  refine ⟨hp.sublist (List.take_sublist _ _), ?_, ?_⟩
  · intro x hx
    have hx2 : x ∈ sortByTime (msgs.filter (fun m => decide (m.phone = phone))) :=
      List.mem_of_mem_take hx
    have hx3 := List.mem_filter.mp (mem_sortByTime.mp hx2)
    exact of_decide_eq_true hx3.2
  · have hp2 := hp
    rw [← List.take_append_drop limit
      (sortByTime (msgs.filter (fun m => decide (m.phone = phone))))] at hp2
    exact fun x hx y hy => (List.pairwise_append.mp hp2).2.2 x hx y hy

/-- C1 (amended, witness): concrete application with three stored turns. -/
theorem history_returns_oldest_witness :
    turnA.phone = "p" ∧ turnA.createdAt ≤ turnC.createdAt :=
  ⟨(history_returns_oldest "p" 2 threeTurns).2.1 turnA (by decide),
   (history_returns_oldest "p" 2 threeTurns).2.2 turnA (by decide) turnC (by decide)⟩

/-- C3: under any sequential sequence of admission calls the credit balance
of every account stays non-negative, and an admission call on an existing
account whose balance is 0 returns not-admitted and leaves the entire state,
in particular that account's balance, usage counter and all other fields,
unchanged. -/
theorem balance_nonneg_admissions :
    (∀ (calls : List String) (s : PState), AccountsNonneg s →
      AccountsNonneg (admissionSeq calls s)) ∧
    (∀ (s : PState) (phone : String) (u : User),
      lookupIn s.users phone = some u → u.blance = 0 →
      manageUserCredits phone s = (none, s)) := by
  constructor
  · intro calls
    induction calls with
    | nil => intro s h; exact h
    | cons c cs ih =>
      intro s h
      have h1 : admissionSeq (c :: cs) s = admissionSeq cs (manageUserCredits c s).2 := by
        unfold admissionSeq
        rw [List.foldl_cons]
      rw [h1]
      exact ih _ (manageUserCredits_nonneg h)
  · intro s phone u hl hb
    simp only [manageUserCredits, hl]
    rw [if_pos (by omega)]

/-- C3 (witness): concrete admission sequence from an empty store, and a
blocked zero-balance admission leaving the state unchanged. -/
theorem balance_nonneg_admissions_witness :
    AccountsNonneg (admissionSeq ["a", "b", "a"] emptyState) ∧
    manageUserCredits "z" zeroState = (none, zeroState) :=
  ⟨balance_nonneg_admissions.1 ["a", "b", "a"] emptyState (by decide),
   balance_nonneg_admissions.2 zeroState "z" zeroUser (by decide) (by decide)⟩

/-- C7: an admission call for an identifier with no existing account creates
an account whose balance equals the configured trial credit count (9) and
whose usage counter equals 1, stores it, and returns it admitted, without
decrementing the new balance. -/
theorem admit_new_account :
    ∀ (s : PState) (phone : String), lookupIn s.users phone = none →
      ∃ u : User,
        manageUserCredits phone s =
          (some u, { s with users := s.users ++ [(phone, u)] }) ∧
        u.blance = freeSmsCredits ∧ freeSmsCredits = 9 ∧ u.smsSent = 1 := by
  intro s phone h
  refine ⟨⟨freeSmsCredits, 1, true, s.now, s.now⟩, ?_, rfl, rfl, rfl⟩
  simp only [manageUserCredits, h]

/-- C7 (witness): concrete first admission on an empty store. -/
theorem admit_new_account_witness :
    ∃ u : User,
      manageUserCredits "p" emptyState =
        (some u, { emptyState with users := emptyState.users ++ [("p", u)] }) ∧
      u.blance = freeSmsCredits ∧ freeSmsCredits = 9 ∧ u.smsSent = 1 :=
  admit_new_account emptyState "p" rfl

/-- C8: whenever no valid explicit provider override is given, the selection
heuristic returns the primary provider grok, for every message and history,
so the secondary provider is never selected for live routing. -/
theorem selectProvider_always_primary :
    ∀ (m : Txt) (h : List (Role × Txt)) (o : RouteOptions),
      (o.provider = none ∨ ∀ p, o.provider = some p → ¬(p = "grok" ∨ p = "openai")) →
      selectProvider m h o = "grok" := by
  intro m h o ho
  cases hp : o.provider with
  | none =>
    simp only [selectProvider, hp]
    exact selectHeuristic_grok m h
  | some p =>
    rcases ho with ho | ho
    · rw [hp] at ho; cases ho
    · simp only [selectProvider, hp]
      rw [if_neg (ho p hp)]
      exact selectHeuristic_grok m h

/-- C8 (witness): concrete selection without an override. -/
theorem selectProvider_always_primary_witness :
    selectProvider ("hello".toList) [] ⟨none⟩ = "grok" :=
  selectProvider_always_primary ("hello".toList) [] ⟨none⟩ (Or.inl rfl)

/-- C9: evaluation at a failing input. An inbound attachment of 1000 bytes
declaring the unsupported content type video/avi is not rejected: the
transcription provider is invoked once, with that unsupported content type,
and transcription proceeds, even though the type is outside the enumerated
supported set and validateAudio (never called on this path) rejects it. -/
theorem unsupported_type_reaches_transcription :
    (processInboundAudio (Except.ok 1000) (fun _ _ => Except.ok ("hi".toList))
      ⟨some "http://audio", some "video/avi"⟩).2 = [(1000, "video/avi")] ∧
    getSupportedFormats.contains "video/avi" = false ∧
    validateAudio 1000 "video/avi" = false ∧
    (processInboundAudio (Except.ok 1000) (fun _ _ => Except.ok ("hi".toList))
      ⟨some "http://audio", some "video/avi"⟩).1 =
      Except.ok (some ("hi".toList), true) := by
  decide

/-- C4: whenever the selected provider attempt fails, for any message,
history and options, the router makes exactly one further attempt, against
the primary provider's conversational entry point with the same message and
history; at most two provider calls are ever made; and if the fallback call
also fails, the router raises the single aggregate all-providers-unavailable
failure. -/
theorem router_single_fallback :
    ∀ (oracle : Nat → Except Txt Txt) (m : Txt) (h : List (Role × Txt))
      (o : RouteOptions) (e : Txt),
      (firstAttempt oracle m h o).1 = Except.error e →
      (routeMessage oracle m h o).2 =
        (firstAttempt oracle m h o).2 ++ [primaryCall m h] ∧
      (routeMessage oracle m h o).2.length ≤ 2 ∧
      ∀ e2 : Txt, oracle (firstAttempt oracle m h o).2.length = Except.error e2 →
        (routeMessage oracle m h o).1 = Except.error allUnavailableText := by
  intro oracle m h o e hfail
  have hshort := firstAttempt_calls_short oracle m h o
  rcases hfa : firstAttempt oracle m h o with ⟨res, calls⟩
  rw [hfa] at hfail hshort
  simp only at hfail hshort
  subst hfail
  have hrm : routeMessage oracle m h o =
      ((match oracle calls.length with
        | Except.ok r => Except.ok r
        | Except.error _ => Except.error allUnavailableText),
       calls ++ [primaryCall m h]) := by
    unfold routeMessage
    rw [hfa]
    dsimp only
    cases ho : oracle calls.length <;> rfl
  rw [hrm]
  refine ⟨rfl, ?_, ?_⟩
  · simp only [List.length_append, List.length_cons, List.length_nil]
    omega
  · intro e2 he2
    simp only at he2 ⊢
    rw [he2]

/-- C4 (witness): concrete double failure with an always-failing provider. -/
theorem router_single_fallback_witness :
    (routeMessage failOracle ("hi".toList) [] ⟨none⟩).1 =
      Except.error allUnavailableText ∧
    (routeMessage failOracle ("hi".toList) [] ⟨none⟩).2.length ≤ 2 :=
  ⟨(router_single_fallback failOracle ("hi".toList) [] ⟨none⟩ ("boom".toList)
      (by decide)).2.2 ("boom".toList) (by decide),
   (router_single_fallback failOracle ("hi".toList) [] ⟨none⟩ ("boom".toList)
      (by decide)).2.1⟩

/-- C2 (counterexample): for maxLength 40 and the 41-character reply whose
remainder after position 6 begins with a space, finalize returns the
truncated prefix plus marker, but the stored Continuation holds the
whitespace-trimmed remainder, the continuation lookup immediately afterward
returns that trimmed text rather than the exact remainder, and the
marker-stripped prefix concatenated with the stored remainder does not equal
the original reply. -/
theorem finalize_exact_remainder_cex :
    handleLongResponse 40 "p" spacedReply emptyState =
      Except.ok ("abcdef".toList ++ marker, spacedAfter) ∧
    (getLatestRemainingMessage "p" spacedAfter.now spacedAfter.remaining).map
      (fun c => c.content) = some (List.replicate 34 'b') ∧
    spacedReply.drop 6 ≠ List.replicate 34 'b' ∧
    "abcdef".toList ++ List.replicate 34 'b' ≠ spacedReply := by
  decide

/-- C2 (amended): a reply of length at most maxLength returns unchanged from
finalize with no Continuation created; a longer reply returns the prefix of
length exactly maxLength - 34 followed by the 34-character marker, and a
Continuation holding the whitespace-trimmed remainder (the storage schema
trims content) is appended and is returned by the continuation lookup
immediately afterward; when the remainder carries no leading or trailing
whitespace (so trimming is the identity on it) the marker-stripped prefix
concatenated with the stored remainder equals the original reply. -/
theorem finalize_roundtrip :
    ∀ (maxLen : Nat) (phone : String) (response : Txt) (s : PState),
      (∀ c ∈ s.remaining, c.createdAt < s.now) →
      34 ≤ maxLen →
      ((response.length ≤ maxLen →
        handleLongResponse maxLen phone response s = Except.ok (response, s)) ∧
       (maxLen < response.length →
        trimText (response.drop (maxLen - 34)) ≠ [] →
        ∃ cont s2,
          handleLongResponse maxLen phone response s =
            Except.ok (response.take (maxLen - 34) ++ marker, s2) ∧
          (response.take (maxLen - 34)).length = maxLen - 34 ∧
          marker.length = 34 ∧
          s2.remaining = s.remaining ++ [cont] ∧
          cont.content = trimText (response.drop (maxLen - 34)) ∧
          getLatestRemainingMessage phone s2.now s2.remaining = some cont ∧
          (trimText (response.drop (maxLen - 34)) = response.drop (maxLen - 34) →
            response.take (maxLen - 34) ++ cont.content = response))) := by
  intro maxLen phone response s hwf hml
  constructor
  · intro hle
    unfold handleLongResponse
    rw [if_pos hle]
  · intro hgt htrim
    have hne : ¬ response.length ≤ maxLen := Nat.not_le.mpr hgt
    have hclen : ¬ (trimText (response.drop (maxLen - 34))).length = 0 := by
      intro h0
      exact htrim (List.length_eq_zero.mp h0)
    have hcr : createRemainingMessage phone (response.drop (maxLen - 34)) s =
        Except.ok
          (⟨phone, trimText (response.drop (maxLen - 34)),
            maxIndexOf phone s.remaining + 1, maxIndexOf phone s.remaining + 1,
            s.now, s.now + 86400000⟩,
           { s with
              remaining := s.remaining ++
                [⟨phone, trimText (response.drop (maxLen - 34)),
                  maxIndexOf phone s.remaining + 1, maxIndexOf phone s.remaining + 1,
                  s.now, s.now + 86400000⟩]
              now := s.now + 1 }) := by
      simp only [createRemainingMessage]
      rw [if_neg hclen]
    refine ⟨⟨phone, trimText (response.drop (maxLen - 34)),
        maxIndexOf phone s.remaining + 1, maxIndexOf phone s.remaining + 1,
        s.now, s.now + 86400000⟩,
      { s with
          remaining := s.remaining ++
            [⟨phone, trimText (response.drop (maxLen - 34)),
              maxIndexOf phone s.remaining + 1, maxIndexOf phone s.remaining + 1,
              s.now, s.now + 86400000⟩]
          now := s.now + 1 },
      ?_, ?_, ?_, rfl, rfl, ?_, ?_⟩
    · simp only [handleLongResponse]
      rw [if_neg hne, hcr]
    · rw [List.length_take]
      omega
    · decide
    · exact getLatest_append_self rfl (by dsimp only; omega) hwf
    · intro hdd
      calc response.take (maxLen - 34) ++ trimText (response.drop (maxLen - 34))
          = response.take (maxLen - 34) ++ response.drop (maxLen - 34) := by rw [hdd]
        _ = response := List.take_append_drop _ _

/-- C2 (amended, witness): concrete applications of both branches, at
maxLength 40 with a short reply and with the 41-character spaced reply. -/
theorem finalize_roundtrip_witness :
    (handleLongResponse 40 "p" ("hello".toList) emptyState =
      Except.ok ("hello".toList, emptyState)) ∧
    (∃ cont s2,
      handleLongResponse 40 "p" spacedReply emptyState =
        Except.ok (spacedReply.take (40 - 34) ++ marker, s2) ∧
      (spacedReply.take (40 - 34)).length = 40 - 34 ∧
      marker.length = 34 ∧
      s2.remaining = emptyState.remaining ++ [cont] ∧
      cont.content = trimText (spacedReply.drop (40 - 34)) ∧
      getLatestRemainingMessage "p" s2.now s2.remaining = some cont ∧
      (trimText (spacedReply.drop (40 - 34)) = spacedReply.drop (40 - 34) →
        spacedReply.take (40 - 34) ++ cont.content = spacedReply)) :=
  ⟨(finalize_roundtrip 40 "p" ("hello".toList) emptyState (by decide)
      (by decide)).1 (by decide),
   (finalize_roundtrip 40 "p" spacedReply emptyState (by decide)
      (by decide)).2 (by decide) (by decide)⟩

/-- C6: the more command replies with the content of the most recently
created unexpired Continuation of the account (or the fixed nothing-pending
message when none exists), consumes no credit, invokes no response provider
and changes no state; the lookup only ever returns an unexpired Continuation
of the account that is at least as recent as every other unexpired one, and
returns none when every stored Continuation of the account has expired, even
though those records remain in storage. -/
theorem more_command_contract :
    (∀ (oracle : Nat → Except Txt Txt) (phone : String) (message : Txt) (s : PState),
      normalize message = "more".toList →
      processUserMessage oracle phone message s =
        ⟨[moreReplyFor phone s], [], [], none, s⟩) ∧
    (∀ (phone : String) (now : Nat) (rem : List Continuation) (c : Continuation),
      getLatestRemainingMessage phone now rem = some c →
      c ∈ rem ∧ c.phone = phone ∧ now < c.expiresAt ∧
        ∀ c2 ∈ rem, c2.phone = phone → now < c2.expiresAt →
          c2.createdAt ≤ c.createdAt) ∧
    (∀ (phone : String) (now : Nat) (rem : List Continuation),
      (∀ c ∈ rem, c.phone = phone → c.expiresAt ≤ now) →
      getLatestRemainingMessage phone now rem = none) := by
  refine ⟨?_, ?_, ?_⟩
  · intro oracle phone message s hm
    have hc : handleSpecialCommands phone message s = some (moreReplyFor phone s, s) := by
      unfold handleSpecialCommands
      rw [hm]
      rw [if_neg (by decide), if_neg (by decide), if_neg (by decide),
        if_neg (by decide), if_pos rfl]
      rfl
    unfold processUserMessage
    rw [hc]
  · intro phone now rem c h
    unfold getLatestRemainingMessage at h
    obtain ⟨h1, _, h3⟩ := latestOf_mem_max _ none c h
    rcases h1 with h1 | h1
    · cases h1
    · have hm := List.mem_filter.mp h1
      have hm2 := hm.2
      simp only [Bool.and_eq_true, decide_eq_true_eq] at hm2
      refine ⟨hm.1, hm2.1, hm2.2, ?_⟩
      intro c2 hc2 hp2 he2
      exact h3 c2 (List.mem_filter.mpr ⟨hc2, by simp [hp2, he2]⟩)
  · intro phone now rem hall
    unfold getLatestRemainingMessage unexpiredFor
    have hnil : rem.filter
        (fun c => decide (c.phone = phone) && decide (now < c.expiresAt)) = [] := by
      rw [List.filter_eq_nil_iff]
      intro c hc
      simp only [Bool.and_eq_true, decide_eq_true_eq, not_and]
      intro hp
      exact Nat.not_lt.mpr (hall c hc hp)
    rw [hnil]
    rfl

/-- C6 (witness): concrete more command against a store with one unexpired
and one expired Continuation, and an expired-only lookup returning none. -/
theorem more_command_contract_witness :
    processUserMessage failOracle "p" ("MORE ".toList) moreState =
      ⟨["tail".toList], [], [], none, moreState⟩ ∧
    (tailCont ∈ moreState.remaining ∧ 20 < tailCont.expiresAt) ∧
    getLatestRemainingMessage "p" 9999999 moreState.remaining = none := by
  refine ⟨?_, ?_, ?_⟩
  · have h := more_command_contract.1 failOracle "p" ("MORE ".toList) moreState
      (by decide)
    rw [h]
    decide
  · have h := more_command_contract.2.1 "p" 20 moreState.remaining tailCont (by decide)
    exact ⟨h.1, h.2.2.1⟩
  · exact more_command_contract.2.2 "p" 9999999 moreState.remaining (by decide)

/-- C10: the welcome notification is triggered by the post-transaction usage
counter equalling 1, not by account creation: for every account snapshot, the
welcome event fires exactly when the usage counter is 1; and for every
existing account, after a top-up resets the usage counter to 0, the next
admitted message raises the counter to 1 and fires the welcome notification
again. -/
theorem welcome_on_usage_counter :
    (∀ u : User, Note.welcome ∈ notificationsFor u ↔ u.smsSent = 1) ∧
    (∀ (s : PState) (phone : String) (u : User) (credits : Int),
      lookupIn s.users phone = some u → 0 ≤ u.blance → 1 ≤ credits →
      lookupIn (addCreditsToUser phone credits s).users phone =
        some { u with blance := u.blance + credits, smsSent := 0,
                      lastActivity := s.now } ∧
      ∃ u2, (manageUserCredits phone (addCreditsToUser phone credits s)).1 = some u2 ∧
        u2.smsSent = 1 ∧ Note.welcome ∈ notificationsFor u2) := by
  constructor
  · intro u
    unfold notificationsFor
    by_cases h : u.smsSent = 1
    · simp [h]
    · simp only [h, if_false]
      split_ifs <;> simp [h]
  · intro s phone u credits hl hb hc
    have hlook : lookupIn (addCreditsToUser phone credits s).users phone =
        some { u with blance := u.blance + credits, smsSent := 0,
                      lastActivity := s.now } := by
      simp only [addCreditsToUser, hl]
      rw [lookupIn_updateIn, hl]
      rfl
    refine ⟨hlook, ?_⟩
    have hnot : ¬ (u.blance + credits ≤ 0) := by omega
    have hpos : (0 : Int) < u.blance + credits := by omega
    refine ⟨consumeCredit
        { u with blance := u.blance + credits, smsSent := 0, lastActivity := s.now }
        (addCreditsToUser phone credits s).now, ?_, ?_, ?_⟩
    · simp only [manageUserCredits, hlook]
      rw [if_neg hnot]
    · unfold consumeCredit
      dsimp only
      rw [if_pos hpos]
    · unfold consumeCredit
      dsimp only
      rw [if_pos hpos]
      unfold notificationsFor
      simp

/-- C10 (witness): concrete top-up of an existing account with usage 7 and
balance 3, then a next admitted message. -/
theorem welcome_on_usage_counter_witness :
    lookupIn (addCreditsToUser "p" 4 midState).users "p" =
      some { midUser with blance := midUser.blance + 4, smsSent := 0,
                          lastActivity := midState.now } ∧
    ∃ u2, (manageUserCredits "p" (addCreditsToUser "p" 4 midState)).1 = some u2 ∧
      u2.smsSent = 1 ∧ Note.welcome ∈ notificationsFor u2 :=
  welcome_on_usage_counter.2 midState "p" midUser 4 (by decide) (by decide) (by decide)

theorem creditAndRespond_double_failure
    (oracle : Nat → Except Txt Txt) (phone : String) (message : Txt)
    (s s1 : PState) (u : User) (e0 e1 : Txt)
    (hmuc : manageUserCredits phone s = (some u, s1))
    (h0 : oracle 0 = Except.error e0) (h1 : oracle 1 = Except.error e1)
    (htr : trimText message = message) (hne : message ≠ [])
    (hlen : message.length ≤ 2000) :
    ∃ calls, creditAndRespond oracle phone message s =
      ⟨[], [], calls, some allUnavailableText,
        { s1 with
            messages := s1.messages ++ [⟨phone, Role.user, message, s1.now⟩]
            now := s1.now + 1 }⟩ := by
  have hcm : createMessage phone Role.user message s1 =
      Except.ok { s1 with
        messages := s1.messages ++ [⟨phone, Role.user, message, s1.now⟩]
        now := s1.now + 1 } := by
    simp only [createMessage, htr]
    rw [if_neg (fun h => hne (List.length_eq_zero.mp h)), if_neg (Nat.not_lt.mpr hlen)]
  have hrt : ∀ H : List (Role × Txt), routeMessage oracle message H ⟨none⟩ =
      (Except.error allUnavailableText,
       [primaryCall message H, primaryCall message H]) := by
    intro H
    unfold routeMessage
    rw [firstAttempt_no_override, h0]
    dsimp only
    simp only [List.length_cons, List.length_nil]
    rw [h1]
    rfl
  have hg : generateAIResponse oracle phone message s1 =
      (Except.error allUnavailableText,
       { s1 with
           messages := s1.messages ++ [⟨phone, Role.user, message, s1.now⟩]
           now := s1.now + 1 },
       [primaryCall message
          ((getConversationHistory phone 10
            (s1.messages ++ [⟨phone, Role.user, message, s1.now⟩])).map
              (fun m => (m.role, m.content))),
        primaryCall message
          ((getConversationHistory phone 10
            (s1.messages ++ [⟨phone, Role.user, message, s1.now⟩])).map
              (fun m => (m.role, m.content)))]) := by
    unfold generateAIResponse
    rw [hcm]
    dsimp only
    rw [hrt]
  refine ⟨[primaryCall message
      ((getConversationHistory phone 10
        (s1.messages ++ [⟨phone, Role.user, message, s1.now⟩])).map
          (fun m => (m.role, m.content))),
    primaryCall message
      ((getConversationHistory phone 10
        (s1.messages ++ [⟨phone, Role.user, message, s1.now⟩])).map
          (fun m => (m.role, m.content)))], ?_⟩
  unfold creditAndRespond
  rw [hmuc]
  dsimp only
  rw [hg]

/-- C5: when every provider call of the request fails (the selected attempt
and the single fallback), the user receives exactly one reply, the generic
failure text; the final message store is the initial one extended by exactly
the user-role turn persisted at the start of generation; in particular no
assistant-role turn is written and the user turn remains persisted. -/
theorem double_failure_single_reply :
    ∀ (oracle : Nat → Except Txt Txt) (phone : String) (body : Txt) (s : PState)
      (e0 e1 : Txt),
      oracle 0 = Except.error e0 →
      oracle 1 = Except.error e1 →
      trimText body ≠ [] →
      (trimText body).length ≤ 2000 →
      normalize (trimText body) ≠ "stop".toList →
      normalize (trimText body) ≠ "account".toList →
      normalize (trimText body) ≠ "delete history".toList →
      normalize (trimText body) ≠ "delete account".toList →
      normalize (trimText body) ≠ "more".toList →
      (lookupIn s.users phone = none ∨
        ∃ u, lookupIn s.users phone = some u ∧ 0 < u.blance) →
      (handleIncomingText oracle phone body s).replies = [genericFailureText] ∧
      (handleIncomingText oracle phone body s).state.messages =
        s.messages ++ [⟨phone, Role.user, trimText body, s.now⟩] ∧
      ∀ m ∈ (handleIncomingText oracle phone body s).state.messages,
        m.role = Role.assistant → m ∈ s.messages := by
  intro oracle phone body s e0 e1 h0 h1 hne hlen hc1 hc2 hc3 hc4 hc5 hadm
  have hidem : trimText (trimText body) = trimText body := trimText_idem body
  have hMlen0 : ¬ (trimText body).length = 0 :=
    fun h => hne (List.length_eq_zero.mp h)
  have hpm : processUserMessage oracle phone (trimText body) s =
      creditAndRespond oracle phone (trimText body) s := by
    unfold processUserMessage
    rw [handleSpecialCommands_eq_none hc1 hc2 hc3 hc4 hc5]
  obtain ⟨u, s1, hmuc, hmsg, hnow⟩ :
      ∃ u s1, manageUserCredits phone s = (some u, s1) ∧
        s1.messages = s.messages ∧ s1.now = s.now := by
    rcases hadm with hnone | ⟨u, hu, hub⟩
    · exact ⟨⟨freeSmsCredits, 1, true, s.now, s.now⟩,
        { s with users := s.users ++ [(phone, ⟨freeSmsCredits, 1, true, s.now, s.now⟩)] },
        by simp only [manageUserCredits, hnone], rfl, rfl⟩
    · exact ⟨consumeCredit u s.now,
        { s with users := updateIn s.users phone (consumeCredit u s.now) },
        by simp only [manageUserCredits, hu]; rw [if_neg (by omega)], rfl, rfl⟩
  obtain ⟨calls, hcar⟩ := creditAndRespond_double_failure oracle phone
    (trimText body) s s1 u e0 e1 hmuc h0 h1 hidem hne hlen
  have hrun : handleIncomingText oracle phone body s =
      ⟨[genericFailureText], [], calls, none,
        { s1 with
            messages := s1.messages ++ [⟨phone, Role.user, trimText body, s1.now⟩]
            now := s1.now + 1 }⟩ := by
    unfold handleIncomingText
    dsimp only
    rw [if_neg hMlen0, hpm, hcar]
    rfl
  rw [hrun]
  refine ⟨rfl, ?_, ?_⟩
  · dsimp only
    rw [hmsg, hnow]
  · intro m hm hrole
    dsimp only at hm
    rcases List.mem_append.mp hm with h | h
    · rw [hmsg] at h
      exact h
    · rcases List.mem_cons.mp h with h | h
      · rw [h] at hrole
        exact Role.noConfusion hrole
      · cases h

/-- C5 (witness): concrete double failure on an empty store with an ordinary
message. -/
theorem double_failure_single_reply_witness :
    (handleIncomingText failOracle "p" (" hello there ".toList) emptyState).replies =
      [genericFailureText] ∧
    (handleIncomingText failOracle "p" (" hello there ".toList) emptyState).state.messages =
      emptyState.messages ++
        [⟨"p", Role.user, trimText (" hello there ".toList), emptyState.now⟩] :=
  ⟨(double_failure_single_reply failOracle "p" (" hello there ".toList) emptyState
      ("boom".toList) ("boom".toList) rfl rfl (by decide) (by decide) (by decide)
      (by decide) (by decide) (by decide) (by decide) (Or.inl rfl)).1,
   (double_failure_single_reply failOracle "p" (" hello there ".toList) emptyState
      ("boom".toList) ("boom".toList) rfl rfl (by decide) (by decide) (by decide)
      (by decide) (by decide) (by decide) (by decide) (Or.inl rfl)).2.1⟩

end SmsEngine
